import Mathlib

/- Verification of the document-structure analyzer (`scripts/doc_structure.py`).
   The analyzer is embedded shallowly: document content is a `List Char`,
   lines are `List (List Char)`, and every Python integer is an `Int`.
   Python `//` is floor division; every division in the analyzer uses a
   positive constant divisor (10, 4, 2, 6), for which floor division agrees
   with Euclidean division, i.e. with `/` on `Int`. -/

namespace DocStruct

/-- ASCII whitespace, the characters matched by Python's regex class `\s`
    and stripped by `str.strip()` (restricted to the ASCII range; the
    concrete documents used below are ASCII). -/
def isSpaceCh (c : Char) : Bool :=
  c == ' ' || c == '\t' || c == '\n' || c == '\r' || c == '\x0b' || c == '\x0c'

/-- Embedding of `str.strip()`. -/
def stripChars (s : List Char) : List Char :=
  ((s.dropWhile isSpaceCh).reverse.dropWhile isSpaceCh).reverse

/-- Embedding of `str.rstrip(':')`. -/
def rstripColon (s : List Char) : List Char :=
  (s.reverse.dropWhile (fun c => c == ':')).reverse

/-- Embedding of `content.split('\n')`: the empty content yields one empty
    line, and every newline separates two (possibly empty) lines. -/
def splitLines : List Char → List (List Char)
  | [] => [[]]
  | c :: cs =>
    if c == '\n' then [] :: splitLines cs
    else
      match splitLines cs with
      | [] => [c] :: []
      | l :: ls => (c :: l) :: ls

/-- A detected header: `{'line': i + 1, 'level': level, 'text': text}`. -/
structure Header where
  line : Int
  level : Int
  text : List Char
deriving DecidableEq

/-- A computed section: `{'name', 'start_line', 'end_line', 'line_count'}`. -/
structure Section where
  name : List Char
  start_line : Int
  end_line : Int
  line_count : Int
deriving DecidableEq

/-- One line of the markdown rule `re.match(r'^(#{1,6})\s+(.+)$', line)`:
    one to six leading marker characters, then at least one whitespace
    character, then at least one further character (`.` also matches
    whitespace, so only the total length matters); the level is the marker
    count and the captured remainder is stripped. -/
def matchMarkdownLine (line : List Char) : Option (Int × List Char) :=
  let n := (line.takeWhile (fun c => c == '#')).length
  match line.drop n with
  | [] => none
  | c :: cs =>
    if 1 ≤ n ∧ n ≤ 6 ∧ isSpaceCh c ∧ cs ≠ [] then
      some ((n : Int), stripChars (c :: cs))
    else none

/-- Markdown variant of the header loop. -/
def markdownHeaders (lines : List (List Char)) : List Header :=
  lines.enum.filterMap fun p =>
    (matchMarkdownLine p.2).map fun q => ⟨(p.1 : Int) + 1, q.1, q.2⟩

/-- One start position of `re.search(r'PAT([^}]+)}', line)`: if the literal
    pattern is a prefix here, the capture is the maximal run of
    non-closing-brace characters after it, which must be non-empty and
    followed by a closing brace. -/
def tryCapture (pat : List Char) (s : List Char) : Option (List Char) :=
  if pat.isPrefixOf s then
    let t := s.drop pat.length
    let cap := t.takeWhile (fun c => !(c == '\x7d'))
    if cap ≠ [] ∧ (t.drop cap.length).head? = some '\x7d' then some cap
    else none
  else none

/-- `re.search` scans the start positions from the left and returns the
    leftmost successful match. -/
def findCapture (pat : List Char) : List Char → Option (List Char)
  | [] => none
  | c :: cs =>
    match tryCapture pat (c :: cs) with
    | some cap => some cap
    | none => findCapture pat cs

/-- The three latex declaration patterns with their levels, in source order. -/
def latexPatterns : List (List Char × Int) :=
  [(("\\chapter\x7b").toList, 1), (("\\section\x7b").toList, 2),
   (("\\subsection\x7b").toList, 3)]

/-- Latex variant, one line: every pattern is tried and each match appends a
    header — there is no break, so one line can contribute several headers. -/
def latexLineHeaders (i : Int) (line : List Char) : List Header :=
  latexPatterns.filterMap fun p =>
    (findCapture p.1 line).map fun cap => ⟨i, p.2, stripChars cap⟩

/-- Latex variant of the header loop. -/
def latexHeaders (lines : List (List Char)) : List Header :=
  (lines.enum.map fun p => latexLineHeaders ((p.1 : Int) + 1) p.2).flatten

/-- Roman numeral characters of the class `[IVXLC]`. -/
def isRomanCh (c : Char) : Bool :=
  c == 'I' || c == 'V' || c == 'X' || c == 'L' || c == 'C'

/-- One keyword alternative of
    `^(Chapter|CHAPTER)\s+(\d+|[IVXLC]+)[:\.]?\s*(.*)$`: after the keyword,
    at least one whitespace, then digits (preferred) or roman numerals,
    an optional colon or dot, optional whitespace, and the rest as title.
    Returns the raw level-1 text `g1 + ' ' + g2 + ' ' + g3`. -/
def tryChapterKw (kw : List Char) (s : List Char) : Option (List Char) :=
  if kw.isPrefixOf s then
    let t := s.drop kw.length
    let ws := t.takeWhile isSpaceCh
    if ws = [] then none
    else
      let u := t.drop ws.length
      let num :=
        let ds := u.takeWhile Char.isDigit
        if ds ≠ [] then some ds
        else
          let rs := u.takeWhile isRomanCh
          if rs ≠ [] then some rs else none
      match num with
      | none => none
      | some g2 =>
        let v := u.drop g2.length
        let v2 :=
          match v with
          | c :: cs => if c == ':' || c == '.' then cs else c :: cs
          | [] => ([] : List Char)
        let g3 := v2.drop (v2.takeWhile isSpaceCh).length
        some (kw ++ ' ' :: g2 ++ ' ' :: g3)
  else none

/-- Book pattern 1: the alternation tries `Chapter` before `CHAPTER`; the
    two literals cannot both be prefixes of one string, so the order only
    fixes which one is reported. -/
def matchBookChapter (s : List Char) : Option (List Char) :=
  match tryChapterKw (("Chapter").toList) s with
  | some t => some t
  | none => tryChapterKw (("CHAPTER").toList) s

/-- Book pattern 2, `^(\d+)\.\s+([A-Z][^.]+)$`: digits, a dot, whitespace,
    then an upper-case letter followed by at least one more character, none
    of them a dot, up to the end of the (stripped) line. Returns group 2. -/
def matchBookNumbered (s : List Char) : Option (List Char) :=
  let ds := s.takeWhile Char.isDigit
  if ds = [] then none
  else
    match s.drop ds.length with
    | '.' :: t =>
      let ws := t.takeWhile isSpaceCh
      if ws = [] then none
      else
        match t.drop ws.length with
        | c :: cs =>
          if c.isUpper ∧ cs ≠ [] ∧ cs.all (fun x => !(x == '.')) then some (c :: cs)
          else none
        | [] => none
    | _ => none

/-- Book pattern 3, `^(\d+\.\d+)\s+(.+)$`: digits, a dot, digits,
    whitespace, then a non-empty title to the end. Returns group 2. -/
def matchBookDotted (s : List Char) : Option (List Char) :=
  let d1 := s.takeWhile Char.isDigit
  if d1 = [] then none
  else
    match s.drop d1.length with
    | '.' :: t =>
      let d2 := t.takeWhile Char.isDigit
      if d2 = [] then none
      else
        let u := t.drop d2.length
        let ws := u.takeWhile isSpaceCh
        if ws = [] then none
        else
          let g2 := u.drop ws.length
          if g2 = [] then none else some g2
    | _ => none

/-- Book variant, one line: the three patterns are tried on the stripped
    line in priority order and the loop breaks at the first match, so a
    line yields at most one header. -/
def bookLineHeader (i : Int) (line : List Char) : Option Header :=
  let s := stripChars line
  match matchBookChapter s with
  | some t => some ⟨i, 1, stripChars t⟩
  | none =>
    match matchBookNumbered s with
    | some t => some ⟨i, 2, stripChars t⟩
    | none =>
      match matchBookDotted s with
      | some t => some ⟨i, 3, stripChars t⟩
      | none => none

/-- Book variant of the header loop. -/
def bookHeaders (lines : List (List Char)) : List Header :=
  lines.enum.filterMap fun p => bookLineHeader ((p.1 : Int) + 1) p.2

/-- ASCII reading of `str.isupper()`: at least one cased character and no
    lower-case character. -/
def isUpperStr (s : List Char) : Bool :=
  s.any Char.isUpper && s.all (fun c => !(c.isLower))

/-- ASCII reading of `str.isalpha()`: non-empty and all alphabetic. -/
def isAlphaStr (s : List Char) : Bool :=
  !(s.isEmpty) && s.all Char.isAlpha

/-- Plain variant, one line: a header is a stripped non-empty line that is
    either all upper-case of length 4..99 (level 1 when upper-case), or a
    line of length < 80 ending in a colon whose body (spaces removed) is
    alphabetic; the stored text has trailing colons stripped. -/
def plainLineHeader (i : Int) (line : List Char) : Option Header :=
  let s := stripChars line
  if s ≠ [] ∧
      ((isUpperStr s ∧ 3 < s.length ∧ s.length < 100) ∨
       (s.getLast? = some ':' ∧ s.length < 80 ∧
        isAlphaStr ((s.dropLast).filter (fun c => !(c == ' '))))) then
    some ⟨i, if isUpperStr s then 1 else 2, rstripColon s⟩
  else none

/-- Plain variant of the header loop. -/
def plainHeaders (lines : List (List Char)) : List Header :=
  lines.enum.filterMap fun p => plainLineHeader ((p.1 : Int) + 1) p.2

/-- Start positions of `^` under `re.MULTILINE`: the whole content and
    every suffix following a newline. -/
def startsAfterNewline : List Char → List (List Char)
  | [] => []
  | c :: cs =>
    if c == '\n' then cs :: startsAfterNewline cs else startsAfterNewline cs

/-- All multiline start positions of the content. -/
def multilineStarts (content : List Char) : List (List Char) :=
  content :: startsAfterNewline content

/-- Detection probe `^#{1,6}\s` at one start position; the whitespace may
    be the newline terminating the line, so the probe reads the raw suffix. -/
def mdProbe (s : List Char) : Bool :=
  let n := (s.takeWhile (fun c => c == '#')).length
  decide (1 ≤ n) && decide (n ≤ 6) && (s.drop n).head?.any isSpaceCh

/-- Detection probe `^\\(section|chapter|title)\{` at one start position. -/
def latexProbe (s : List Char) : Bool :=
  (("\\section\x7b").toList).isPrefixOf s || (("\\chapter\x7b").toList).isPrefixOf s ||
    (("\\title\x7b").toList).isPrefixOf s

/-- The third book detection alternative `^\d+\.\s+[A-Z]` at one start
    position (its whitespace may also run across a newline). -/
def bookProbeDigit (s : List Char) : Bool :=
  let ds := s.takeWhile Char.isDigit
  !(ds.isEmpty) &&
    (match s.drop ds.length with
     | '.' :: t =>
       let ws := t.takeWhile isSpaceCh
       !(ws.isEmpty) && (t.drop ws.length).head?.any Char.isUpper
     | _ => false)

/-- Detection probe `^Chapter \d|^CHAPTER \d|^\d+\.\s+[A-Z]`. -/
def bookProbe (s : List Char) : Bool :=
  ((("Chapter ").toList).isPrefixOf s && (s.drop 8).head?.any Char.isDigit) ||
  ((("CHAPTER ").toList).isPrefixOf s && (s.drop 8).head?.any Char.isDigit) ||
  bookProbeDigit s

/-- The `auto` detection chain, first probe wins, `plain` as fallback. -/
def detectFormat (content : List Char) : String :=
  if (multilineStarts content).any mdProbe then "markdown"
  else if (multilineStarts content).any latexProbe then "latex"
  else if (multilineStarts content).any bookProbe then "book"
  else "plain"

/-- The section construction loop: each header opens a section that ends
    one line before the next header, the last section ending at
    `total_lines`; `line_count = end - start + 1`. -/
def buildSections (total_lines : Int) : List Header → List Section
  | [] => []
  | [h] => [⟨h.text, h.line, total_lines, total_lines - h.line + 1⟩]
  | h :: h2 :: rest =>
    ⟨h.text, h.line, h2.line - 1, h2.line - 1 - h.line + 1⟩ ::
      buildSections total_lines (h2 :: rest)

/-- The `sampling_points` dictionary; `q25`, `q50`, `q75` and `end_` stand
    for the keys `25_percent`, `50_percent`, `75_percent` and `end`. -/
structure SamplingPoints where
  beginning : Int × Int
  q25 : Int × Int
  q50 : Int × Int
  q75 : Int × Int
  end_ : Int × Int
  chunks : List (Int × Int)
deriving DecidableEq

/-- The sampling-point block of `analyze_text_structure`, as a function of
    the total extent. -/
def samplingPoints (total : Int) : SamplingPoints :=
  let chunk_size := max 1 (total / 6)
  { beginning := if total > 10 then (1, min (total / 10) 100) else (1, total)
  , q25 := (total / 4, min total (total / 4 + 50))
  , q50 := (total / 2, min total (total / 2 + 50))
  , q75 := (3 * total / 4, min total (3 * total / 4 + 50))
  , end_ := (max 1 (total - total / 10), total)
  , chunks :=
      if total < 6 then [(1, total)]
      else (List.range 6).map fun (i : Nat) =>
        ((i : Int) * chunk_size + 1, min (((i : Int) + 1) * chunk_size) total) }

/-- The dictionary returned by `analyze_text_structure` (the fields the
    structural claims are about). -/
structure AnalysisResult where
  format : String
  total_lines : Int
  headers : List Header
  sections : List Section
  sampling_points : SamplingPoints
deriving DecidableEq

/-- The format dispatch of the header loop: the `if/elif` chain on the
    format string, with the plain rules as the `else` branch for any other
    string. -/
def extractHeaders (fmt : String) (lines : List (List Char)) : List Header :=
  if fmt = "markdown" then markdownHeaders lines
  else if fmt = "latex" then latexHeaders lines
  else if fmt = "book" then bookHeaders lines
  else plainHeaders lines

/-- `analyze_text_structure` from the point where the file content has been
    read: split into lines, resolve the format (detection only for
    `'auto'`), extract headers, build sections over the full header list,
    compute sampling points, and truncate headers to 50 and sections to 30
    in the returned report. -/
def analyzeTextStructure (content : List Char) (format_hint : String) : AnalysisResult :=
  let lines := splitLines content
  let total_lines : Int := (lines.length : Int)
  let fmt := if format_hint = "auto" then detectFormat content else format_hint
  let headers := extractHeaders fmt lines
  let sections := buildSections total_lines headers
  { format := fmt
  , total_lines := total_lines
  , headers := headers.take 50
  , sections := sections.take 30
  , sampling_points := samplingPoints total_lines }

/-- Modelled from the spec: the chunk formula exactly as written in §4.2 of
    the spec — `size = max(1, total/chunk_count)`; `[(1, total)]` when
    `total < chunk_count`; otherwise the `chunk_count` windows
    `(i*size + 1, min((i+1)*size, total))` for `i` in `0..chunk_count-1`,
    with `chunk_count = 6`. -/
def specChunks (total : Int) : List (Int × Int) :=
  let size := max 1 (total / 6)
  if total < 6 then [(1, total)]
  else (List.range 6).map fun (i : Nat) =>
    ((i : Int) * size + 1, min (((i : Int) + 1) * size) total)

/-- Validity of a window for a document of the given extent: the property
    `1 ≤ start ≤ end ≤ total` claimed for the five named windows. -/
def windowOK (w : Int × Int) (total : Int) : Prop :=
  1 ≤ w.1 ∧ w.1 ≤ w.2 ∧ w.2 ≤ total

/-- Splitting content on newlines always yields at least one line: the empty
    content already yields one empty line. -/
theorem splitLines_ne_nil (s : List Char) : splitLines s ≠ [] := by
  cases s with
  | nil => simp [splitLines]
  | cons c cs =>
    simp only [splitLines]
    split
    · simp
    · split <;> simp

/-- C4: for every total extent, the chunk list computed by the code equals the
    chunk formula as written in the spec: `[(1, total)]` when `total < 6`, and
    otherwise the six windows `(i*size + 1, min((i+1)*size, total))` with
    `size = max(1, total/6)`. -/
theorem chunks_match_spec_formula (total : Int) :
    (samplingPoints total).chunks = specChunks total := rfl

/-- C4 witness: the spec formula equality instantiated at total 9. -/
theorem chunks_match_spec_formula_witness :
    (samplingPoints 9).chunks = specChunks 9 :=
  chunks_match_spec_formula 9

/-- C1 counterexample: for the 8-line plain document of Scenario B the chunk
    windows are (1,1)..(6,6); every window ends strictly before line 8, so the
    union of the chunks is not `[1, 8]` and the last chunk is not clamped to
    end at line 8 as the claim states. -/
theorem chunks_eight_leave_gap :
    (samplingPoints 8).chunks = [(1, 1), (2, 2), (3, 3), (4, 4), (5, 5), (6, 6)] ∧
    ((samplingPoints 8).chunks.all fun c => decide (c.2 < 8)) = true := by decide

/-- C1 (amended): for `total < 6` the chunk list is exactly `[(1, total)]`;
    for `total ≥ 6` the six chunks are contiguous and pairwise disjoint, but
    their union is exactly `[1, 6*(total/6)]`, which falls `total mod 6` lines
    short of `total` whenever 6 does not divide `total`. -/
theorem chunk_windows_cover_floor_multiple (total : Int) :
    (total < 6 → (samplingPoints total).chunks = [(1, total)]) ∧
    (6 ≤ total →
      (samplingPoints total).chunks =
        [(1, total / 6), (total / 6 + 1, 2 * (total / 6)),
         (2 * (total / 6) + 1, 3 * (total / 6)), (3 * (total / 6) + 1, 4 * (total / 6)),
         (4 * (total / 6) + 1, 5 * (total / 6)), (5 * (total / 6) + 1, 6 * (total / 6))] ∧
      (∀ k : Int, (1 ≤ k ∧ k ≤ 6 * (total / 6)) ↔
        ∃ c ∈ (samplingPoints total).chunks, c.1 ≤ k ∧ k ≤ c.2) ∧
      (samplingPoints total).chunks.Pairwise (fun a b => a.2 < b.1) ∧
      6 * (total / 6) ≤ total ∧ total - 6 * (total / 6) < 6) := by
  constructor
  · intro h
    simp [samplingPoints, if_pos h]
  · intro h
    have h6 : ¬ (total < 6) := by omega
    have hm1 : max 1 (total / 6) = total / 6 := by omega
    have hr : List.range 6 = [0, 1, 2, 3, 4, 5] := rfl
    have hchunks : (samplingPoints total).chunks =
        [(1, total / 6), (total / 6 + 1, 2 * (total / 6)),
         (2 * (total / 6) + 1, 3 * (total / 6)), (3 * (total / 6) + 1, 4 * (total / 6)),
         (4 * (total / 6) + 1, 5 * (total / 6)), (5 * (total / 6) + 1, 6 * (total / 6))] := by
      simp only [samplingPoints, if_neg h6, hm1, hr, List.map_cons, List.map_nil,
        List.cons.injEq, and_true, Prod.mk.injEq]
      omega
    refine ⟨hchunks, ?_, ?_, by omega, by omega⟩
    · intro k
      rw [hchunks]
      simp only [List.mem_cons, List.not_mem_nil, or_false]
      constructor
      · intro hk
        by_cases h1 : k ≤ total / 6
        · exact ⟨(1, total / 6), Or.inl rfl, by omega, by omega⟩
        · by_cases h2 : k ≤ 2 * (total / 6)
          · exact ⟨(total / 6 + 1, 2 * (total / 6)), by tauto, by omega, by omega⟩
          · by_cases h3 : k ≤ 3 * (total / 6)
            · exact ⟨(2 * (total / 6) + 1, 3 * (total / 6)), by tauto, by omega, by omega⟩
            · by_cases h4 : k ≤ 4 * (total / 6)
              · exact ⟨(3 * (total / 6) + 1, 4 * (total / 6)), by tauto, by omega, by omega⟩
              · by_cases h5 : k ≤ 5 * (total / 6)
                · exact ⟨(4 * (total / 6) + 1, 5 * (total / 6)), by tauto, by omega, by omega⟩
                · exact ⟨(5 * (total / 6) + 1, 6 * (total / 6)), by tauto, by omega, by omega⟩
      · rintro ⟨c, hc, hc1, hc2⟩
        rcases hc with rfl | rfl | rfl | rfl | rfl | rfl <;> dsimp only at hc1 hc2 <;> omega
    · rw [hchunks]
      simp only [List.pairwise_cons, List.mem_cons, List.not_mem_nil, or_false,
        forall_eq_or_imp, forall_eq, List.Pairwise.nil, and_true, false_implies,
        forall_const]
      omega

/-- C1 witness: the amended theorem instantiated at totals 3 and 14. -/
theorem chunk_windows_cover_floor_multiple_witness :
    (samplingPoints 3).chunks = [(1, 3)] ∧
    (samplingPoints 14).chunks =
      [(1, 14 / 6), (14 / 6 + 1, 2 * (14 / 6)),
       (2 * (14 / 6) + 1, 3 * (14 / 6)), (3 * (14 / 6) + 1, 4 * (14 / 6)),
       (4 * (14 / 6) + 1, 5 * (14 / 6)), (5 * (14 / 6) + 1, 6 * (14 / 6))] :=
  ⟨(chunk_windows_cover_floor_multiple 3).1 (by decide),
   ((chunk_windows_cover_floor_multiple 14).2 (by decide)).1⟩

/-- C2 counterexample: for a single-line document the `25_percent` window is
    `(0, 1)`; its start is 0, violating `1 ≤ start`. -/
theorem quartile_window_start_zero :
    (samplingPoints 1).q25 = (0, 1) ∧ ¬ (1 ≤ (samplingPoints 1).q25.1) := by decide

/-- C2 (amended): for every `total ≥ 4` each of the five named windows
    satisfies `1 ≤ start ≤ end ≤ total`; for `total ∈ {1, 2, 3}` the quartile
    windows have start `total/4`, `total/2` or `3*total/4` equal to 0. -/
theorem named_windows_valid (total : Int) (h : 4 ≤ total) :
    windowOK (samplingPoints total).beginning total ∧
    windowOK (samplingPoints total).q25 total ∧
    windowOK (samplingPoints total).q50 total ∧
    windowOK (samplingPoints total).q75 total ∧
    windowOK (samplingPoints total).end_ total := by
  simp only [samplingPoints, windowOK]
  split_ifs with h10 <;>
    refine ⟨⟨?_, ?_, ?_⟩, ⟨?_, ?_, ?_⟩, ⟨?_, ?_, ?_⟩, ⟨?_, ?_, ?_⟩, ⟨?_, ?_, ?_⟩⟩ <;>
    (try simp) <;> omega

/-- C2 witness: the amended theorem instantiated at total 7. -/
theorem named_windows_valid_witness :
    windowOK (samplingPoints 7).beginning 7 ∧
    windowOK (samplingPoints 7).q25 7 ∧
    windowOK (samplingPoints 7).q50 7 ∧
    windowOK (samplingPoints 7).q75 7 ∧
    windowOK (samplingPoints 7).end_ 7 :=
  named_windows_valid 7 (by decide)

/-- C8 counterexample: at total `-1` the sampling block silently returns a
    full plan; no `InvalidExtent` rejection exists anywhere in the code. -/
theorem negative_total_returns_plan :
    samplingPoints (-1) =
      { beginning := (1, -1), q25 := (-1, -1), q50 := (-1, -1), q75 := (-1, -1)
      , end_ := (1, -1), chunks := [(1, -1)] } := by decide

/-- C8 (amended): a negative total is never rejected — the chunk branch
    silently produces the degenerate window `[(1, total)]` — and a negative
    total is unreachable in the analyzer, because splitting the content on
    newlines always produces at least one line. -/
theorem negative_total_not_rejected :
    (∀ total : Int, total < 0 → (samplingPoints total).chunks = [(1, total)]) ∧
    (∀ content : List Char, 1 ≤ (splitLines content).length) := by
  constructor
  · intro total h
    simp [samplingPoints, if_pos (show total < 6 by omega)]
  · intro content
    have h := splitLines_ne_nil content
    cases hc : splitLines content with
    | nil => exact absurd hc h
    | cons a l => simp

/-- C8 witness: the amended theorem instantiated at total `-5` and at the
    single-character content `a`. -/
theorem negative_total_not_rejected_witness :
    (samplingPoints (-5)).chunks = [(1, -5)] ∧ 1 ≤ (splitLines ('a' :: [])).length :=
  ⟨negative_total_not_rejected.1 (-5) (by decide),
   negative_total_not_rejected.2 ('a' :: [])⟩

/-- C9 counterexample: at total 0 the `25_percent` window is `(0, 0)`, whose
    start is 0 — not a `(1, 0)`-form empty window (the spec's own window model
    demands `start ≥ 1`). -/
theorem zero_total_quartile_not_one_zero :
    (samplingPoints 0).q25 = (0, 0) ∧ (samplingPoints 0).q25 ≠ (1, 0) := by decide

/-- C9 (amended): at total 0 the planner returns a degenerate plan with no
    error and no division by zero (all divisors are the constants 10, 4, 2
    and 6): beginning and end are `(1, 0)`, the three quartile windows are
    `(0, 0)`, and the chunk list collapses to `[(1, 0)]`. -/
theorem zero_total_degenerate_plan :
    samplingPoints 0 =
      { beginning := (1, 0), q25 := (0, 0), q50 := (0, 0), q75 := (0, 0)
      , end_ := (1, 0), chunks := [(1, 0)] } := by decide

/-- The section loop produces one section per header. -/
theorem buildSections_length (t : Int) (hs : List Header) :
    (buildSections t hs).length = hs.length := by
  induction hs with
  | nil => rfl
  | cons h rest ih =>
    cases rest with
    | nil => rfl
    | cons h2 rest2 => simpa [buildSections] using ih

/-- Each section starts at the line of its header. -/
theorem buildSections_map_start (t : Int) (hs : List Header) :
    (buildSections t hs).map Section.start_line = hs.map Header.line := by
  induction hs with
  | nil => rfl
  | cons h rest ih =>
    cases rest with
    | nil => rfl
    | cons h2 rest2 => simpa [buildSections] using ih

/-- The first section of a non-empty header list starts at the first
    header's line. -/
theorem buildSections_head_start (t : Int) (h : Header) (rest : List Header) :
    ∃ s, (buildSections t (h :: rest)).head? = some s ∧ s.start_line = h.line := by
  cases rest with
  | nil => exact ⟨_, rfl, rfl⟩
  | cons h2 rest2 => exact ⟨_, rfl, rfl⟩

/-- Consecutive sections are adjacent: each ends one line before the next
    starts. -/
theorem buildSections_chain (t : Int) (hs : List Header) :
    List.Chain' (fun a b => a.end_line + 1 = b.start_line) (buildSections t hs) := by
  induction hs with
  | nil => simp [buildSections]
  | cons h rest ih =>
    cases rest with
    | nil => simp [buildSections]
    | cons h2 rest2 =>
      rw [show buildSections t (h :: h2 :: rest2) =
            ⟨h.text, h.line, h2.line - 1, h2.line - 1 - h.line + 1⟩ ::
              buildSections t (h2 :: rest2) from rfl]
      rw [List.chain'_cons']
      refine ⟨?_, ih⟩
      intro b hb
      obtain ⟨s, hhead, hstart⟩ := buildSections_head_start t h2 rest2
      rw [hhead] at hb
      cases hb
      rw [hstart]
      show h2.line - 1 + 1 = h2.line
      omega

/-- The last section of a non-empty header list ends at `total_lines`. -/
theorem buildSections_getLast_end (t : Int) (hs : List Header) (hne : hs ≠ []) :
    ((buildSections t hs).getLast?).map Section.end_line = some t := by
  induction hs with
  | nil => exact absurd rfl hne
  | cons h rest ih =>
    cases rest with
    | nil => rfl
    | cons h2 rest2 =>
      have ih' := ih (by simp)
      cases rest2 with
      | nil => simp [buildSections]
      | cons h3 r3 =>
        rw [show buildSections t (h :: h2 :: h3 :: r3) =
              ⟨h.text, h.line, h2.line - 1, h2.line - 1 - h.line + 1⟩ ::
                ⟨h2.text, h2.line, h3.line - 1, h3.line - 1 - h2.line + 1⟩ ::
                  buildSections t (h3 :: r3) from rfl]
        rw [show buildSections t (h2 :: h3 :: r3) =
              ⟨h2.text, h2.line, h3.line - 1, h3.line - 1 - h2.line + 1⟩ ::
                buildSections t (h3 :: r3) from rfl] at ih'
        rw [List.getLast?_cons_cons]
        exact ih'

/-- Every section's start line is the line of one of the headers. -/
theorem buildSections_start_mem (t : Int) (hs : List Header) (s : Section)
    (hmem : s ∈ buildSections t hs) : ∃ h ∈ hs, s.start_line = h.line := by
  have hmap := buildSections_map_start t hs
  have hin : s.start_line ∈ hs.map Header.line := by
    rw [← hmap]
    exact List.mem_map_of_mem Section.start_line hmem
  obtain ⟨h, hh, hline⟩ := List.mem_map.mp hin
  exact ⟨h, hh, hline.symm⟩

/-- In a strictly line-increasing header list every header's line is at
    least the first header's line. -/
theorem chain_head_le_line (h0 : Header) (rest : List Header)
    (hc : List.Chain' (fun a b => a.line < b.line) (h0 :: rest)) :
    ∀ h ∈ h0 :: rest, h0.line ≤ h.line := by
  induction rest generalizing h0 with
  | nil =>
    intro h hh
    rcases List.mem_singleton.mp hh with rfl
    exact le_refl _
  | cons h1 rest1 ih =>
    intro h hh
    have hlt : h0.line < h1.line := (List.chain'_cons.mp hc).1
    have hc1 : List.Chain' (fun a b => a.line < b.line) (h1 :: rest1) :=
      (List.chain'_cons'.mp hc).2
    rcases List.mem_cons.mp hh with rfl | hh1
    · exact le_refl _
    · exact le_trans (le_of_lt hlt) (ih h1 hc1 h hh1)

/-- With strictly increasing header lines, every produced section is
    non-degenerate (`start ≤ end`) provided every header line is at most
    `total_lines`, and its `line_count` is `end - start + 1`. -/
theorem buildSections_valid (t : Int) (hs : List Header)
    (hc : List.Chain' (fun a b => a.line < b.line) hs)
    (hb : ∀ h ∈ hs, h.line ≤ t) :
    ∀ s ∈ buildSections t hs,
      s.start_line ≤ s.end_line ∧ s.line_count = s.end_line - s.start_line + 1 := by
  induction hs with
  | nil => intro s hmem; simp [buildSections] at hmem
  | cons h rest ih =>
    cases rest with
    | nil =>
      intro s hmem
      rcases List.mem_singleton.mp hmem with rfl
      refine ⟨?_, rfl⟩
      have := hb h (by simp)
      simpa using this
    | cons h2 rest2 =>
      intro s hmem
      rcases List.mem_cons.mp hmem with rfl | hmem2
      · have hlt : h.line < h2.line := (List.chain'_cons.mp hc).1
        exact ⟨by simpa using by omega, rfl⟩
      · exact ih (List.chain'_cons'.mp hc).2 (fun x hx => hb x (List.mem_cons_of_mem h hx))
          s hmem2

/-- With strictly increasing header lines, the sections are pairwise
    disjoint (each ends strictly before the next starts). -/
theorem buildSections_pairwise (t : Int) (hs : List Header)
    (hc : List.Chain' (fun a b => a.line < b.line) hs) :
    (buildSections t hs).Pairwise (fun a b => a.end_line < b.start_line) := by
  induction hs with
  | nil => simp [buildSections]
  | cons h rest ih =>
    cases rest with
    | nil => simp [buildSections]
    | cons h2 rest2 =>
      rw [show buildSections t (h :: h2 :: rest2) =
            ⟨h.text, h.line, h2.line - 1, h2.line - 1 - h.line + 1⟩ ::
              buildSections t (h2 :: rest2) from rfl]
      have hc2 : List.Chain' (fun a b => a.line < b.line) (h2 :: rest2) :=
        (List.chain'_cons'.mp hc).2
      refine List.Pairwise.cons ?_ (ih hc2)
      intro s hmem
      obtain ⟨hx, hhx, hstart⟩ := buildSections_start_mem t (h2 :: rest2) s hmem
      have hle := chain_head_le_line h2 rest2 hc2 hx hhx
      simp only [hstart]
      omega

/-- With strictly increasing header lines bounded by `total_lines`, the
    sections cover exactly the lines from the first header's line to
    `total_lines`. -/
theorem buildSections_coverage (t : Int) (h0 : Header) (rest : List Header)
    (hc : List.Chain' (fun a b => a.line < b.line) (h0 :: rest))
    (hb : ∀ h ∈ h0 :: rest, h.line ≤ t) :
    ∀ k : Int, (h0.line ≤ k ∧ k ≤ t) ↔
      ∃ s ∈ buildSections t (h0 :: rest), s.start_line ≤ k ∧ k ≤ s.end_line := by
  induction rest generalizing h0 with
  | nil =>
    intro k
    constructor
    · intro hk
      exact ⟨_, List.mem_singleton.mpr rfl, hk.1, hk.2⟩
    · rintro ⟨s, hmem, hk1, hk2⟩
      rcases List.mem_singleton.mp hmem with rfl
      exact ⟨hk1, hk2⟩
  | cons h1 rest1 ih =>
    intro k
    have hlt : h0.line < h1.line := (List.chain'_cons.mp hc).1
    have hc1 : List.Chain' (fun a b => a.line < b.line) (h1 :: rest1) :=
      (List.chain'_cons'.mp hc).2
    have hb1 : ∀ h ∈ h1 :: rest1, h.line ≤ t :=
      fun x hx => hb x (List.mem_cons_of_mem h0 hx)
    have hbh1 : h1.line ≤ t := hb1 h1 (by simp)
    have ihk := ih h1 hc1 hb1 k
    rw [show buildSections t (h0 :: h1 :: rest1) =
          ⟨h0.text, h0.line, h1.line - 1, h1.line - 1 - h0.line + 1⟩ ::
            buildSections t (h1 :: rest1) from rfl]
    constructor
    · intro hk
      by_cases hsplit : k ≤ h1.line - 1
      · exact ⟨_, List.mem_cons_self _ _, by dsimp only; omega, by dsimp only; omega⟩
      · obtain ⟨s, hmem, hk1, hk2⟩ := ihk.mp ⟨by omega, hk.2⟩
        exact ⟨s, List.mem_cons_of_mem _ hmem, hk1, hk2⟩
    · rintro ⟨s, hmem, hk1, hk2⟩
      rcases List.mem_cons.mp hmem with rfl | hmem2
      · dsimp only at hk1 hk2
        omega
      · have := ihk.mpr ⟨s, hmem2, hk1, hk2⟩
        exact ⟨by omega, this.2⟩

/-- C3 counterexample: for the two-line markdown document whose only header
    is on line 2, the single section is `[2, 2]`: line 1 of `[1, 2]` is not
    covered by any section, so the sections are not a partition of
    `[1, total_lines]`. -/
theorem sections_skip_first_line :
    (analyzeTextStructure (("intro\n# Title").toList) "markdown").total_lines = 2 ∧
    (analyzeTextStructure (("intro\n# Title").toList) "markdown").sections =
      [⟨("Title").toList, 2, 2, 1⟩] ∧
    ((analyzeTextStructure (("intro\n# Title").toList) "markdown").sections.all
      fun s => decide (2 ≤ s.start_line)) = true := by decide

/-- C3 (amended): zero headers give zero sections, and for a non-empty
    header list with strictly increasing lines all bounded by `total_lines`
    (as the single-match extractors produce), the sections form a partition
    of `[first header line, total_lines]` — not of `[1, total_lines]`:
    consecutive sections are adjacent, the last ends at `total_lines`, the
    sections are pairwise disjoint and they cover exactly the lines from the
    first header's line to `total_lines`. -/
theorem sections_partition_from_first_header (t : Int) (h0 : Header)
    (rest : List Header)
    (hc : List.Chain' (fun a b => a.line < b.line) (h0 :: rest))
    (hb : ∀ h ∈ h0 :: rest, h.line ≤ t) :
    buildSections t ([] : List Header) = [] ∧
    List.Chain' (fun a b => a.end_line + 1 = b.start_line)
      (buildSections t (h0 :: rest)) ∧
    ((buildSections t (h0 :: rest)).getLast?).map Section.end_line = some t ∧
    (∀ s ∈ buildSections t (h0 :: rest),
      s.start_line ≤ s.end_line ∧ s.line_count = s.end_line - s.start_line + 1) ∧
    (buildSections t (h0 :: rest)).Pairwise (fun a b => a.end_line < b.start_line) ∧
    (∀ k : Int, (h0.line ≤ k ∧ k ≤ t) ↔
      ∃ s ∈ buildSections t (h0 :: rest), s.start_line ≤ k ∧ k ≤ s.end_line) :=
  ⟨rfl, buildSections_chain t (h0 :: rest),
   buildSections_getLast_end t (h0 :: rest) (by simp),
   buildSections_valid t (h0 :: rest) hc hb,
   buildSections_pairwise t (h0 :: rest) hc,
   buildSections_coverage t h0 rest hc hb⟩

/-- C3 witness: the amended theorem instantiated at headers on lines 1 and 3
    with 5 total lines. -/
theorem sections_partition_from_first_header_witness :
    ((buildSections 5 [⟨1, 1, ('A' :: [])⟩, ⟨3, 2, ('B' :: [])⟩]).getLast?).map
      Section.end_line = some 5 :=
  (sections_partition_from_first_header 5 ⟨1, 1, ('A' :: [])⟩ [⟨3, 2, ('B' :: [])⟩]
    (List.chain'_cons.mpr ⟨by decide, List.chain'_singleton _⟩) (by decide)).2.2.1

/-- Index-wise description of the section loop: the section at index `i`
    starts at header `i`'s line and ends at header `i+1`'s line minus one,
    or at `total_lines` when header `i` is the last one. -/
theorem buildSections_getElem (t : Int) (hs : List Header) (i : Nat) (h : Header)
    (hh : hs[i]? = some h) :
    (∀ h2, hs[i + 1]? = some h2 →
      (buildSections t hs)[i]? =
        some ⟨h.text, h.line, h2.line - 1, h2.line - 1 - h.line + 1⟩) ∧
    (hs[i + 1]? = none →
      (buildSections t hs)[i]? = some ⟨h.text, h.line, t, t - h.line + 1⟩) := by
  induction hs generalizing i with
  | nil => simp at hh
  | cons a rest ih =>
    cases i with
    | zero =>
      simp only [List.getElem?_cons_zero, Option.some.injEq] at hh
      subst hh
      cases rest with
      | nil =>
        constructor
        · intro h2 hh2
          simp at hh2
        · intro
          exact List.getElem?_cons_zero
      | cons b r2 =>
        constructor
        · intro h2 hh2
          simp only [List.getElem?_cons_succ, List.getElem?_cons_zero,
            Option.some.injEq] at hh2
          subst hh2
          rw [show buildSections t (a :: b :: r2) =
                ⟨a.text, a.line, b.line - 1, b.line - 1 - a.line + 1⟩ ::
                  buildSections t (b :: r2) from rfl]
          exact List.getElem?_cons_zero
        · intro hnone
          simp at hnone
    | succ j =>
      simp only [List.getElem?_cons_succ] at hh
      cases rest with
      | nil => simp at hh
      | cons b r2 =>
        have step := ih j hh
        constructor
        · intro h2 hh2
          rw [List.getElem?_cons_succ] at hh2
          rw [show buildSections t (a :: b :: r2) =
                ⟨a.text, a.line, b.line - 1, b.line - 1 - a.line + 1⟩ ::
                  buildSections t (b :: r2) from rfl,
            List.getElem?_cons_succ]
          exact step.1 h2 hh2
        · intro hnone
          rw [List.getElem?_cons_succ] at hnone
          rw [show buildSections t (a :: b :: r2) =
                ⟨a.text, a.line, b.line - 1, b.line - 1 - a.line + 1⟩ ::
                  buildSections t (b :: r2) from rfl,
            List.getElem?_cons_succ]
          exact step.2 hnone

/-- C5: for every header list and total, the builder yields one section per
    header; the section at index `i` starts at `headers[i].line`, ends at
    `headers[i+1].line - 1` when a next header exists and at `total_lines`
    otherwise, with `line_count = end - start + 1`; consecutive sections are
    adjacent and the last section ends at `total_lines`. -/
theorem section_builder_formula (t : Int) (hs : List Header) (i : Nat) (h : Header)
    (hh : hs[i]? = some h) :
    (buildSections t hs).length = hs.length ∧
    (∀ h2, hs[i + 1]? = some h2 →
      (buildSections t hs)[i]? =
        some ⟨h.text, h.line, h2.line - 1, h2.line - 1 - h.line + 1⟩) ∧
    (hs[i + 1]? = none →
      (buildSections t hs)[i]? = some ⟨h.text, h.line, t, t - h.line + 1⟩) ∧
    List.Chain' (fun a b => a.end_line + 1 = b.start_line) (buildSections t hs) ∧
    ((buildSections t hs).getLast?).map Section.end_line = some t := by
  obtain ⟨hnext, hlast⟩ := buildSections_getElem t hs i h hh
  refine ⟨buildSections_length t hs, hnext, hlast, buildSections_chain t hs, ?_⟩
  apply buildSections_getLast_end
  intro hempty
  rw [hempty] at hh
  simp at hh

/-- C5 witness: the formula instantiated at two headers on lines 2 and 5
    with 9 total lines, at index 0. -/
theorem section_builder_formula_witness :
    (buildSections 9 [⟨2, 1, ('A' :: [])⟩, ⟨5, 2, ('B' :: [])⟩])[0]? =
      some ⟨('A' :: []), 2, 4, 3⟩ := by
  have step := (section_builder_formula 9 [⟨2, 1, ('A' :: [])⟩, ⟨5, 2, ('B' :: [])⟩]
    0 ⟨2, 1, ('A' :: [])⟩ (by decide)).2.1 ⟨5, 2, ('B' :: [])⟩ (by decide)
  simpa using step

/-- C10: the report's header list is the take-50 truncation and its section
    list the take-30 truncation of the untruncated sequences; the sections
    are built from the full header list, which yields exactly one section
    per header (each starting at that header's line), also beyond the caps. -/
theorem truncation_after_full_computation (content : List Char) (hint : String) :
    (analyzeTextStructure content hint).headers =
      (extractHeaders (if hint = "auto" then detectFormat content else hint)
        (splitLines content)).take 50 ∧
    (analyzeTextStructure content hint).sections =
      (buildSections ((splitLines content).length : Int)
        (extractHeaders (if hint = "auto" then detectFormat content else hint)
          (splitLines content))).take 30 ∧
    (buildSections ((splitLines content).length : Int)
        (extractHeaders (if hint = "auto" then detectFormat content else hint)
          (splitLines content))).length =
      (extractHeaders (if hint = "auto" then detectFormat content else hint)
        (splitLines content)).length ∧
    (buildSections ((splitLines content).length : Int)
        (extractHeaders (if hint = "auto" then detectFormat content else hint)
          (splitLines content))).map Section.start_line =
      (extractHeaders (if hint = "auto" then detectFormat content else hint)
        (splitLines content)).map Header.line :=
  ⟨rfl, rfl, buildSections_length _ _, buildSections_map_start _ _⟩

/-- C10 witness: the truncation theorem instantiated at a one-header
    markdown document with an explicit hint. -/
theorem truncation_after_full_computation_witness :
    (analyzeTextStructure (("# A\nx").toList) "markdown").headers =
      (extractHeaders (if "markdown" = "auto" then detectFormat (("# A\nx").toList)
        else "markdown") (splitLines (("# A\nx").toList))).take 50 ∧
    (analyzeTextStructure (("# A\nx").toList) "markdown").sections =
      (buildSections ((splitLines (("# A\nx").toList)).length : Int)
        (extractHeaders (if "markdown" = "auto" then detectFormat (("# A\nx").toList)
          else "markdown") (splitLines (("# A\nx").toList)))).take 30 ∧
    (buildSections ((splitLines (("# A\nx").toList)).length : Int)
        (extractHeaders (if "markdown" = "auto" then detectFormat (("# A\nx").toList)
          else "markdown") (splitLines (("# A\nx").toList)))).length =
      (extractHeaders (if "markdown" = "auto" then detectFormat (("# A\nx").toList)
        else "markdown") (splitLines (("# A\nx").toList))).length ∧
    (buildSections ((splitLines (("# A\nx").toList)).length : Int)
        (extractHeaders (if "markdown" = "auto" then detectFormat (("# A\nx").toList)
          else "markdown") (splitLines (("# A\nx").toList)))).map Section.start_line =
      (extractHeaders (if "markdown" = "auto" then detectFormat (("# A\nx").toList)
        else "markdown") (splitLines (("# A\nx").toList))).map Header.line :=
  truncation_after_full_computation (("# A\nx").toList) "markdown"

/-- A successful book pattern-2 match forces the matched (stripped) line to
    start with a digit. -/
theorem matchBookNumbered_head_digit (s : List Char) (t : List Char)
    (h : matchBookNumbered s = some t) :
    ∃ c cs, s = c :: cs ∧ Char.isDigit c = true := by
  cases s with
  | nil => simp [matchBookNumbered] at h
  | cons c cs =>
    by_cases hd : Char.isDigit c
    · exact ⟨c, cs, rfl, hd⟩
    · exfalso
      simp [matchBookNumbered, List.takeWhile_cons, hd] at h

/-- A line starting with a digit cannot match the book chapter pattern,
    whose two keyword alternatives both start with the letter C. -/
theorem matchBookChapter_none_of_digit (c : Char) (cs : List Char)
    (hd : Char.isDigit c = true) :
    matchBookChapter (c :: cs) = none := by
  have hne : ('C' == c) = false := by
    cases hqc : ('C' == c) with
    | false => rfl
    | true =>
      have hc : 'C' = c := by simpa using hqc
      rw [← hc] at hd
      exact absurd hd (by decide)
  have e1 : (("Chapter").toList) = 'C' :: (("hapter").toList) := rfl
  have e2 : (("CHAPTER").toList) = 'C' :: (("HAPTER").toList) := rfl
  simp [matchBookChapter, tryChapterKw, e1, e2, List.isPrefixOf, hne]

/-- C6: in the latex variant each declaration kind matching a line
    independently yields a header, so the example line carrying a chapter
    and a section declaration yields two headers, and in general the number
    of headers from a line is the number of matching kinds; in the book
    variant the patterns are tried in priority order with first-match-wins,
    so a line matching the chapter pattern yields its level-1 header, a line
    matching the level-2 pattern yields exactly the level-2 header (the
    chapter pattern cannot also match, since the line starts with a digit),
    and in particular a line matching both the level-2 and the level-3
    patterns yields exactly one header, at level 2. -/
theorem latex_multimatch_book_single_match :
    latexLineHeaders 1 (("\\chapter\x7bA\x7d\\section\x7bB\x7d").toList) =
      [⟨1, 1, ('A' :: [])⟩, ⟨1, 2, ('B' :: [])⟩] ∧
    (∀ i : Int, ∀ line : List Char,
      (latexLineHeaders i line).length =
        (if (findCapture (("\\chapter\x7b").toList) line).isSome then 1 else 0) +
        (if (findCapture (("\\section\x7b").toList) line).isSome then 1 else 0) +
        (if (findCapture (("\\subsection\x7b").toList) line).isSome then 1 else 0)) ∧
    (∀ i : Int, ∀ line t, matchBookChapter (stripChars line) = some t →
      bookLineHeader i line = some ⟨i, 1, stripChars t⟩) ∧
    (∀ i : Int, ∀ line t, matchBookNumbered (stripChars line) = some t →
      bookLineHeader i line = some ⟨i, 2, stripChars t⟩) ∧
    (∀ i : Int, ∀ line t u, matchBookNumbered (stripChars line) = some t →
      matchBookDotted (stripChars line) = some u →
      bookLineHeader i line = some ⟨i, 2, stripChars t⟩) := by
  have hnum : ∀ i : Int, ∀ line t, matchBookNumbered (stripChars line) = some t →
      bookLineHeader i line = some ⟨i, 2, stripChars t⟩ := by
    intro i line t h
    obtain ⟨c, cs, hcs, hd⟩ := matchBookNumbered_head_digit _ _ h
    have hch : matchBookChapter (stripChars line) = none := by
      rw [hcs]
      exact matchBookChapter_none_of_digit c cs hd
    simp [bookLineHeader, hch, h]
  refine ⟨by decide, ?_, ?_, hnum, ?_⟩
  · intro i line
    simp only [latexLineHeaders, latexPatterns, List.filterMap_cons, List.filterMap_nil]
    rcases h1 : findCapture (("\\chapter\x7b").toList) line with _ | c1 <;>
      rcases h2 : findCapture (("\\section\x7b").toList) line with _ | c2 <;>
      rcases h3 : findCapture (("\\subsection\x7b").toList) line with _ | c3 <;>
      simp [h1, h2, h3]
  · intro i line t h
    simp [bookLineHeader, h]
  · intro i line t u h hu
    exact hnum i line t h

/-- C6 witness: the book level-2 clause applied to the line `1. Overview`. -/
theorem latex_multimatch_book_single_match_witness :
    bookLineHeader 3 (("1. Overview").toList) =
      some ⟨3, 2, stripChars (("Overview").toList)⟩ :=
  latex_multimatch_book_single_match.2.2.2.1 3 (("1. Overview").toList)
    (("Overview").toList) (by decide)

/-- C7 counterexample: with the unrecognized hint `xml` the analysis returns
    a normal result — no failure of any kind — whose format field echoes the
    hint and whose headers were extracted by the plain rules (the markdown
    rules would have found a header on the same content). -/
theorem unknown_hint_no_failure :
    (analyzeTextStructure (("# Title").toList) "xml").format = "xml" ∧
    (analyzeTextStructure (("# Title").toList) "xml").headers = [] ∧
    (analyzeTextStructure (("# Title").toList) "markdown").headers =
      [⟨1, 1, ("Title").toList⟩] := by decide

/-- C7 (amended): an explicit hint outside the recognized set is never
    rejected — the function has no `UnsupportedFormatHint` error path; it
    silently treats the document under the plain fallback (the final `else`
    of the format dispatch) while echoing the unrecognized hint as the
    reported format. Hint validation exists only in the argparse layer of
    the CLI. -/
theorem unknown_hint_silent_plain_fallback (content : List Char) (hint : String)
    (h1 : hint ≠ "auto") (h2 : hint ≠ "markdown") (h3 : hint ≠ "latex")
    (h4 : hint ≠ "book") (_h5 : hint ≠ "plain") :
    (analyzeTextStructure content hint).format = hint ∧
    (analyzeTextStructure content hint).headers =
      (plainHeaders (splitLines content)).take 50 ∧
    (analyzeTextStructure content hint).sections =
      (buildSections ((splitLines content).length : Int)
        (plainHeaders (splitLines content))).take 30 := by
  simp [analyzeTextStructure, extractHeaders, h1, h2, h3, h4]

/-- C7 witness: the amended theorem at the hint `xml` on a two-line plain
    document. -/
theorem unknown_hint_silent_plain_fallback_witness :
    (analyzeTextStructure (("HEADING\nbody").toList) "xml").format = "xml" ∧
    (analyzeTextStructure (("HEADING\nbody").toList) "xml").headers =
      (plainHeaders (splitLines (("HEADING\nbody").toList))).take 50 ∧
    (analyzeTextStructure (("HEADING\nbody").toList) "xml").sections =
      (buildSections ((splitLines (("HEADING\nbody").toList)).length : Int)
        (plainHeaders (splitLines (("HEADING\nbody").toList)))).take 30 :=
  unknown_hint_silent_plain_fallback (("HEADING\nbody").toList) "xml"
    (by decide) (by decide) (by decide) (by decide) (by decide)

end DocStruct
